import Mathlib

/-!
Verification development for the room-presence and signaling relay of
`backend/app.py` (Socket.IO part, lines 94-220).  The Python handlers
`on_join`, `on_leave`, `disconnect`, `on_signal`, `_presence_remove` and the
shared tables `room_users` (presence), the transport room membership and the
per-connection sessions are shallowly embedded as pure functions over an
explicit `ServerState`.  Python dicts become association lists (insertion
ordered, first-occurrence lookup, like `dict`), Python sets of device ids
become duplicate-free lists, and each `async with presence_lock` block of the
source becomes one atomic Lean function (`join_lock_block`,
`presence_lock_block`).
-/

set_option maxHeartbeats 1000000

namespace DualVideo

/-- Python whitespace characters stripped by `str.strip()`. -/
def pyWs (c : Char) : Bool :=
  c = ' ' || c = '\t' || c = '\n' || c = '\r' || c = '\x0b' || c = '\x0c'

/-- Python `s.strip()`: drop whitespace from both ends. -/
def pyStrip (s : String) : String :=
  String.mk (((s.data.dropWhile pyWs).reverse.dropWhile pyWs).reverse)

/-- Python `a or b` for strings (empty string is falsy). -/
def pyOr (a b : String) : String := if a = "" then b else a

/-- Association-list lookup, first occurrence wins (Python `dict` access). -/
def lookupA {α : Type} : List (String × α) → String → Option α
  | [], _ => none
  | (k, v) :: t, key => if k = key then some v else lookupA t key

/-- Association-list update: replace the first binding of the key, or append
a new binding at the end (Python `d[k] = v`, insertion ordered). -/
def insertA {α : Type} : List (String × α) → String → α → List (String × α)
  | [], key, v => [(key, v)]
  | (k, w) :: t, key, v =>
    if k = key then (k, v) :: t else (k, w) :: insertA t key v

/-- Association-list deletion of the first binding (Python `d.pop(k, None)`). -/
def eraseA {α : Type} : List (String × α) → String → List (String × α)
  | [], _ => []
  | (k, w) :: t, key => if k = key then t else (k, w) :: eraseA t key

/-- Python `k in d`. -/
def hasKey {α : Type} (l : List (String × α)) (k : String) : Bool :=
  (lookupA l k).isSome

/-- Python `set.add`: sets of device ids are modelled as duplicate-free lists. -/
def setAdd (xs : List String) (x : String) : List String :=
  if xs.contains x then xs else xs ++ [x]

/-- `data.get("userId") or ""` followed by `.strip()` (also for deviceId). -/
def strOf (o : Option String) : String := pyStrip (o.getD "")

/-- `(data.get("room") or "default").strip() or "default"` from `on_join`. -/
def roomOf (o : Option String) : String :=
  let t := strOf o
  if t = "" then "default" else t

/-- Value of `room_users[room][user_id]`: latest display name and device set. -/
structure UserInfo where
  name : String
  devices : List String
deriving DecidableEq, Repr

/-- Saved Socket.IO session of one connection (`sio.save_session`). -/
structure Session where
  room : String
  userId : String
  deviceId : String
  name : String
deriving DecidableEq, Repr

/-- One element of the roster payload built by `emit_roster`. -/
structure RosterEntry where
  userId : String
  name : String
  devices : List String
deriving DecidableEq, Repr

/-- The `room_users` table: room -> userId -> UserInfo. -/
abbrev RoomTable := List (String × List (String × UserInfo))

/-- Whole mutable server state: `room_users`, the transport-level room
membership kept by the Socket.IO server (`sio.enter_room`), and the saved
sessions (`sio.save_session` / `sio.get_session`). -/
structure ServerState where
  roomUsers : RoomTable
  membership : List (String × List String)
  sessions : List (String × Session)
deriving DecidableEq, Repr

/-- The empty server at process start. -/
def initState : ServerState := ⟨[], [], []⟩

/-- JSON-like values for the opaque `signal` payload. -/
inductive JVal where
  | null : JVal
  | b : Bool → JVal
  | s : String → JVal
  | n : Int → JVal
  | arr : List JVal → JVal
  | obj : List (String × JVal) → JVal

/-- Python truthiness of a JSON value. -/
def pyTruthy : JVal → Bool
  | .null => false
  | .b v => v
  | .s v => v ≠ ""
  | .n v => v ≠ 0
  | .arr vs => !vs.isEmpty
  | .obj fs => !fs.isEmpty

/-- Python `d.get(k)` on a JSON object (absent key yields `None`). -/
def jGet (v : JVal) (k : String) : JVal :=
  match v with
  | .obj fs => (lookupA fs k).getD .null
  | _ => .null

/-- Parsed fields of a `join` payload (each may be absent, as in Python). -/
structure JoinData where
  room : Option String
  userId : Option String
  deviceId : Option String
  name : Option String
deriving DecidableEq, Repr

/-- `name = (data.get("name") or user_id or "Guest").strip()` from `on_join`
(line 132); `user_id` is the already-stripped user id. -/
def nameOf (data : JoinData) : String :=
  pyStrip (pyOr (data.name.getD "") (pyOr (strOf data.userId) "Guest"))

/-- Events the server emits, tagged with the target (room with a skipped
sid, or a single sid) exactly as in the source's `sio.emit` calls. -/
inductive SEvent where
  | system : String → String → String → SEvent          -- message, room, skip_sid
  | systemErr : String → String → SEvent                -- message, to sid
  | userJoined : String → String → String → String → Bool → String → SEvent
      -- room, userId, name, deviceId, anotherDevice, skip_sid
  | userLeft : String → String → String → String → Bool → String → String → SEvent
      -- room, userId, name, deviceId, lastDevice, reason, skip_sid
  | roster : String → List RosterEntry → SEvent         -- room, users
  | signal : String → JVal → String → SEvent            -- room, payload, skip_sid

/-- Lexicographic comparison of char lists (Python string ordering by code
points, used by `sorted`). -/
def charsLe : List Char → List Char → Bool
  | [], _ => true
  | _ :: _, [] => false
  | x :: xs, y :: ys => if x < y then true else if y < x then false else charsLe xs ys

/-- Python string comparison `a <= b`. -/
def strLe (a b : String) : Bool := charsLe a.data b.data

/-- Insertion sort step on strings (for `sorted(list(devices))`). -/
def insStr (x : String) : List String → List String
  | [] => [x]
  | y :: t => if strLe x y then x :: y :: t else y :: insStr x t

/-- `sorted(...)` on a list of strings. -/
def sortStr : List String → List String
  | [] => []
  | x :: t => insStr x (sortStr t)

/-- Roster payload computed by `emit_roster` from the current table row. -/
def mkRoster (tbl : List (String × UserInfo)) : List RosterEntry :=
  tbl.map (fun p => ⟨p.1, pyOr p.2.name p.1, sortStr p.2.devices⟩)

/-- `sio.enter_room(sid, room)`: add the connection to the transport-level
membership of the room (idempotent). -/
def enterRoom (st : ServerState) (sid room : String) : ServerState :=
  { st with membership :=
      insertA st.membership room (setAdd ((lookupA st.membership room).getD []) sid) }

/-- Connections of a room in the transport membership registry. -/
def membersOf (st : ServerState) (room : String) : List String :=
  (lookupA st.membership room).getD []

/-- Recipients of an emitted event: the room's membership minus the skipped
sid for room broadcasts, or the single addressed connection. -/
def deliveredTo (st : ServerState) : SEvent → List String
  | .system _ room skip => (membersOf st room).filter (fun c => c ≠ skip)
  | .systemErr _ dest => [dest]
  | .userJoined room _ _ _ _ skip => (membersOf st room).filter (fun c => c ≠ skip)
  | .userLeft room _ _ _ _ _ skip => (membersOf st room).filter (fun c => c ≠ skip)
  | .roster room _ => membersOf st room
  | .signal room _ skip => (membersOf st room).filter (fun c => c ≠ skip)

/-- The second `async with presence_lock` block of `on_join` (lines 150-155):
record presence.  Returns the new `room_users` table, the `already` flag
(line 151) and the `pre` snapshot of the device set (line 154). -/
def join_lock_block (ru : RoomTable) (room uid did name : String) :
    RoomTable × Bool × List String :=
  let tbl := (lookupA ru room).getD []
  let already := hasKey tbl uid
  let tbl1 := if already then tbl else tbl ++ [(uid, ⟨name, []⟩)]
  let info := (lookupA tbl1 uid).getD ⟨name, []⟩
  let pre := info.devices
  let tbl2 := insertA tbl1 uid ⟨info.name, setAdd info.devices did⟩
  (insertA ru room tbl2, already, pre)

/-- `distinct >= 2 and user_id not in room_users[room]` (lines 142-143):
the capacity rejection condition checked in the first lock block. -/
def roomFullFor (st : ServerState) (room uid : String) : Bool :=
  let tbl := (lookupA st.roomUsers room).getD []
  decide (2 ≤ tbl.length) && !(hasKey tbl uid)

/-- Lines 147-165 of `on_join`: the accepted full-mode path.  Transport
membership, session recording, the presence lock block, then the
`user_joined` broadcast and a fresh roster. -/
def joinCommit (st : ServerState) (sid room uid did name : String) :
    ServerState × List SEvent :=
  let st1 := enterRoom st sid room
  let st2 := { st1 with sessions := insertA st1.sessions sid ⟨room, uid, did, name⟩ }
  let res := join_lock_block st2.roomUsers room uid did name
  let st3 := { st2 with roomUsers := res.1 }
  let another := res.2.1 && !(res.2.2.contains did)
  (st3, [SEvent.userJoined room uid name did another sid,
         SEvent.roster room (mkRoster ((lookupA res.1 room).getD []))])

/-- The `join` handler (`on_join`, lines 126-165). -/
def on_join (st : ServerState) (sid : String) (data : JoinData) :
    ServerState × List SEvent :=
  let room := roomOf data.room
  let uid := strOf data.userId
  let did := strOf data.deviceId
  let name := nameOf data
  if uid = "" ∨ did = "" then
    (enterRoom st sid room, [SEvent.system "joined" room sid])
  else if roomFullFor st room uid then
    (st, [SEvent.systemErr "room_full" sid])
  else
    joinCommit st sid room uid did name

/-- The `async with presence_lock` block of `_presence_remove` (lines
191-200): discard the device, drop an emptied entry, drop an emptied room
row.  Returns the new table and the `last_device` flag. -/
def presence_lock_block (ru : RoomTable) (room uid did : String) :
    RoomTable × Bool :=
  match lookupA ru room with
  | none => (ru, false)
  | some tbl =>
    match lookupA tbl uid with
    | none => (ru, false)
    | some ue =>
      let ds := ue.devices.erase did
      if ds.isEmpty then
        let tbl2 := eraseA tbl uid
        if tbl2.isEmpty then (eraseA ru room, true)
        else (insertA ru room tbl2, true)
      else (insertA ru room (insertA tbl uid ⟨ue.name, ds⟩), false)

/-- `_presence_remove(sid, reason)` (lines 177-209).  Looks up the saved
session (a missing session is a silent no-op), runs the lock block, then
emits `user_left` and a fresh roster.  Note: the session itself is not
removed here — the source has no such step. -/
def presence_remove (st : ServerState) (sid reason : String) :
    ServerState × List SEvent :=
  match lookupA st.sessions sid with
  | none => (st, [])
  | some s =>
    let name := pyOr s.name s.userId
    let res := presence_lock_block st.roomUsers s.room s.userId s.deviceId
    let st1 := { st with roomUsers := res.1 }
    if s.room = "" then (st1, [])
    else
      (st1, [SEvent.userLeft s.room s.userId name s.deviceId res.2 reason sid,
             SEvent.roster s.room (mkRoster ((lookupA st1.roomUsers s.room).getD []))])

/-- The `leave` handler (lines 167-169). -/
def on_leave (st : ServerState) (sid : String) : ServerState × List SEvent :=
  presence_remove st sid "leave"

/-- Transport-level cleanup performed by the Socket.IO server after the
`disconnect` handler returns: the closed connection leaves every room and
its saved session is destroyed. -/
def removeSidEverywhere (m : List (String × List String)) (sid : String) :
    List (String × List String) :=
  m.map (fun p => (p.1, p.2.filter (fun c => c ≠ sid)))

/-- The `disconnect` handler (lines 122-124) followed by the transport's own
cleanup of membership and session. -/
def disconnect (st : ServerState) (sid : String) : ServerState × List SEvent :=
  let pr := presence_remove st sid "disconnect"
  ({ pr.1 with sessions := eraseA pr.1.sessions sid,
               membership := removeSidEverywhere pr.1.membership sid }, pr.2)

/-- The `signal` handler (lines 171-175): read the room name from the
payload (defaulting like `(data or {}).get("room") or "default"`) and relay
the payload itself, unchanged, to the room, skipping the sender.  A payload
that is not a JSON object raises in the handler and emits nothing; the model
covers room fields that are strings or absent, the shapes the protocol uses. -/
def on_signal (st : ServerState) (sid : String) (data : JVal) :
    ServerState × List SEvent :=
  let d := if pyTruthy data then data else JVal.obj []
  match d with
  | .obj _ =>
    let room := match jGet d "room" with
      | .s v => if v = "" then "default" else v
      | _ => "default"
    (st, [SEvent.signal room data sid])
  | _ => (st, [])

/-- Client-visible operations, for whole-trace statements. -/
inductive Op where
  | join : String → JoinData → Op
  | leave : String → Op
  | disc : String → Op
deriving DecidableEq, Repr

/-- State transition of one operation (events discarded). -/
def step (st : ServerState) : Op → ServerState
  | .join sid d => (on_join st sid d).1
  | .leave sid => (on_leave st sid).1
  | .disc sid => (disconnect st sid).1

/-- State after a sequence of operations from the empty server. -/
def runOps (ops : List Op) : ServerState := ops.foldl step initState

/-! ### Association-list lemmas -/

/-- Keys of an association list are pairwise distinct (true of every list the
server builds, since `insertA` replaces and `eraseA` deletes). -/
abbrev keysNodup {α : Type} (l : List (String × α)) : Prop :=
  (l.map Prod.fst).Nodup

theorem lookupA_insertA {α : Type} (l : List (String × α)) (k : String) (v : α) (k' : String) :
    lookupA (insertA l k v) k' = if k = k' then some v else lookupA l k' := by
  induction l with
  | nil => simp [insertA, lookupA]
  | cons p t ih =>
    obtain ⟨a, b⟩ := p
    by_cases hak : a = k
    · subst hak
      simp only [insertA, if_pos rfl, lookupA]
      split <;> rfl
    · simp only [insertA, if_neg hak, lookupA]
      split <;> rename_i h
      · subst h
        rw [if_neg (fun hh => hak hh.symm)]
      · rw [ih]

theorem lookupA_mem {α : Type} {l : List (String × α)} {k : String} {v : α}
    (h : lookupA l k = some v) : (k, v) ∈ l := by
  induction l with
  | nil => simp [lookupA] at h
  | cons p t ih =>
    obtain ⟨a, b⟩ := p
    simp only [lookupA] at h
    by_cases hak : a = k
    · rw [if_pos hak] at h
      subst hak
      cases h
      exact List.mem_cons_self _ _
    · rw [if_neg hak] at h
      exact List.mem_cons_of_mem _ (ih h)

theorem mem_insertA {α : Type} {l : List (String × α)} {k : String} {v : α} {q : String × α}
    (h : q ∈ insertA l k v) : q ∈ l ∨ q = (k, v) := by
  induction l with
  | nil => simp [insertA] at h; right; exact h
  | cons p t ih =>
    obtain ⟨a, b⟩ := p
    simp only [insertA] at h
    by_cases hak : a = k
    · rw [if_pos hak] at h
      rcases List.mem_cons.mp h with h1 | h1
      · right; rw [h1, hak]
      · left; exact List.mem_cons_of_mem _ h1
    · rw [if_neg hak] at h
      rcases List.mem_cons.mp h with h1 | h1
      · left; rw [h1]; exact List.mem_cons_self _ _
      · rcases ih h1 with h2 | h2
        · left; exact List.mem_cons_of_mem _ h2
        · right; exact h2

theorem mem_eraseA {α : Type} {l : List (String × α)} {k : String} {q : String × α}
    (h : q ∈ eraseA l k) : q ∈ l := by
  induction l with
  | nil => simp [eraseA] at h
  | cons p t ih =>
    obtain ⟨a, b⟩ := p
    simp only [eraseA] at h
    by_cases hak : a = k
    · rw [if_pos hak] at h
      exact List.mem_cons_of_mem _ h
    · rw [if_neg hak] at h
      rcases List.mem_cons.mp h with h1 | h1
      · rw [h1]; exact List.mem_cons_self _ _
      · exact List.mem_cons_of_mem _ (ih h1)

theorem insertA_length {α : Type} (l : List (String × α)) (k : String) (v : α) :
    (insertA l k v).length = if hasKey l k then l.length else l.length + 1 := by
  induction l with
  | nil => simp [insertA, hasKey, lookupA]
  | cons p t ih =>
    obtain ⟨a, b⟩ := p
    simp only [insertA, hasKey, lookupA]
    by_cases hak : a = k
    · simp [if_pos hak]
    · simp only [if_neg hak, List.length_cons, ih, hasKey]
      split <;> simp

theorem eraseA_length_le {α : Type} (l : List (String × α)) (k : String) :
    (eraseA l k).length ≤ l.length := by
  induction l with
  | nil => simp [eraseA]
  | cons p t ih =>
    obtain ⟨a, b⟩ := p
    simp only [eraseA]
    by_cases hak : a = k
    · rw [if_pos hak]; simp
    · rw [if_neg hak]; simp only [List.length_cons]; omega

theorem lookupA_eq_none_iff {α : Type} (l : List (String × α)) (k : String) :
    lookupA l k = none ↔ k ∉ l.map Prod.fst := by
  induction l with
  | nil => simp [lookupA]
  | cons p t ih =>
    obtain ⟨a, b⟩ := p
    simp only [lookupA, List.map_cons, List.mem_cons]
    by_cases hak : a = k
    · subst hak; simp
    · rw [if_neg hak]
      simp only [ih]
      constructor
      · intro h hh
        rcases hh with hh | hh
        · exact hak hh.symm
        · exact h hh
      · intro h hh
        exact h (Or.inr hh)

theorem lookupA_append_fresh {α : Type} (l : List (String × α)) (k : String) (v : α)
    (h : lookupA l k = none) : lookupA (l ++ [(k, v)]) k = some v := by
  induction l with
  | nil => simp [lookupA]
  | cons p t ih =>
    obtain ⟨a, b⟩ := p
    simp only [lookupA] at h ⊢
    by_cases hak : a = k
    · rw [if_pos hak] at h; cases h
    · rw [if_neg hak] at h ⊢
      exact ih h

theorem map_fst_insertA {α : Type} (l : List (String × α)) (k : String) (v : α) :
    (insertA l k v).map Prod.fst =
      if hasKey l k then l.map Prod.fst else l.map Prod.fst ++ [k] := by
  induction l with
  | nil => simp [insertA, hasKey, lookupA]
  | cons p t ih =>
    obtain ⟨a, b⟩ := p
    simp only [insertA, hasKey, lookupA]
    by_cases hak : a = k
    · simp [if_pos hak, hak]
    · simp only [if_neg hak, List.map_cons, ih, hasKey]
      split <;> simp

theorem keysNodup_insertA {α : Type} {l : List (String × α)} {k : String} {v : α}
    (h : keysNodup l) : keysNodup (insertA l k v) := by
  unfold keysNodup at h ⊢
  rw [map_fst_insertA]
  by_cases hk : hasKey l k
  · rw [if_pos hk]; exact h
  · rw [if_neg hk]
    rw [List.nodup_append]
    refine ⟨h, List.nodup_singleton _, ?_⟩
    intro x hx hx1
    rw [List.mem_singleton] at hx1
    subst hx1
    have hn : lookupA l x = none := by
      cases hl : lookupA l x with
      | none => rfl
      | some w => exact absurd (by simp [hasKey, hl]) hk
    exact (lookupA_eq_none_iff l x).mp hn hx

theorem keysNodup_eraseA {α : Type} {l : List (String × α)} {k : String}
    (h : keysNodup l) : keysNodup (eraseA l k) := by
  induction l with
  | nil => simp [eraseA, keysNodup]
  | cons p t ih =>
    obtain ⟨a, b⟩ := p
    unfold keysNodup at h
    simp only [List.map_cons, List.nodup_cons] at h
    obtain ⟨ha, ht⟩ := h
    unfold keysNodup
    simp only [eraseA]
    by_cases hak : a = k
    · rw [if_pos hak]; exact ht
    · rw [if_neg hak]
      simp only [List.map_cons, List.nodup_cons]
      refine ⟨?_, ih ht⟩
      intro hmem
      rcases List.mem_map.mp hmem with ⟨q, hq, hfst⟩
      exact ha (List.mem_map.mpr ⟨q, mem_eraseA hq, hfst⟩)

theorem lookupA_eraseA_self {α : Type} {l : List (String × α)} {k : String}
    (h : keysNodup l) : lookupA (eraseA l k) k = none := by
  induction l with
  | nil => simp [eraseA, lookupA]
  | cons p t ih =>
    obtain ⟨a, b⟩ := p
    unfold keysNodup at h
    simp only [List.map_cons, List.nodup_cons] at h
    obtain ⟨ha, ht⟩ := h
    simp only [eraseA]
    by_cases hak : a = k
    · rw [if_pos hak]
      subst hak
      exact (lookupA_eq_none_iff t a).mpr ha
    · rw [if_neg hak]
      simp only [lookupA, if_neg hak]
      exact ih ht

theorem setAdd_ne_nil (xs : List String) (x : String) : setAdd xs x ≠ [] := by
  unfold setAdd
  cases xs with
  | nil => simp
  | cons y t => split <;> simp

/-! ### Structural lemmas about the handlers -/

theorem enterRoom_roomUsers (st : ServerState) (sid room : String) :
    (enterRoom st sid room).roomUsers = st.roomUsers := rfl

theorem join_lock_block_already (ru : RoomTable) (room uid did name : String) :
    (join_lock_block ru room uid did name).2.1 = hasKey ((lookupA ru room).getD []) uid := rfl

/-- The `pre` snapshot captured on line 154 is the device set the user had
in the table before the mutation (empty if the entry was just created). -/
theorem join_lock_block_pre (ru : RoomTable) (room uid did name : String) :
    (join_lock_block ru room uid did name).2.2 =
      (match lookupA ((lookupA ru room).getD []) uid with
       | some ue => ue.devices
       | none => []) := by
  unfold join_lock_block
  cases h : lookupA ((lookupA ru room).getD []) uid with
  | some ue => simp [hasKey, h]
  | none => simp [hasKey, h, lookupA_append_fresh _ _ _ h]

/-- Case analysis of the removal lock block when the entry exists. -/
theorem presence_lock_block_char (ru : RoomTable) (room uid did : String)
    (tbl : List (String × UserInfo)) (ue : UserInfo)
    (ht : lookupA ru room = some tbl) (hu : lookupA tbl uid = some ue) :
    presence_lock_block ru room uid did =
      (if ue.devices.erase did = [] then
        (if eraseA tbl uid = [] then (eraseA ru room, true)
         else (insertA ru room (eraseA tbl uid), true))
       else (insertA ru room (insertA tbl uid ⟨ue.name, ue.devices.erase did⟩), false)) := by
  unfold presence_lock_block
  simp only [ht, hu]
  by_cases hds : ue.devices.erase did = []
  · by_cases htb : eraseA tbl uid = []
    · simp [hds, htb, List.isEmpty_iff]
    · simp [hds, htb, List.isEmpty_iff]
  · simp [hds, List.isEmpty_iff]

/-- `_presence_remove` on a connection with a tracked session: the lock block
runs on the table and the `user_left` / roster events are emitted. -/
theorem presence_remove_char (st : ServerState) (sid reason : String) (s : Session)
    (hs : lookupA st.sessions sid = some s) (hr : s.room ≠ "") :
    presence_remove st sid reason =
      ({ st with roomUsers := (presence_lock_block st.roomUsers s.room s.userId s.deviceId).1 },
       [SEvent.userLeft s.room s.userId (pyOr s.name s.userId) s.deviceId
          (presence_lock_block st.roomUsers s.room s.userId s.deviceId).2 reason sid,
        SEvent.roster s.room
          (mkRoster ((lookupA (presence_lock_block st.roomUsers s.room s.userId s.deviceId).1 s.room).getD []))]) := by
  unfold presence_remove
  simp only [hs]
  rw [if_neg hr]

/-! ### Claim C1: capacity enforcement on full-mode join -/

/-- C1.  For every full-mode join into a room currently holding at least 2
distinct userIds: if the joining userId is not among them, `on_join` emits
only a `room_full` error notice delivered to the joining connection alone
and returns the state unchanged (no presence, membership or session
mutation); if the joining userId is already present, the join proceeds to
the normal commit path and emits `user_joined` plus a roster. -/
theorem claim_C1_capacity (st : ServerState) (sid : String) (data : JoinData)
    (hu : strOf data.userId ≠ "") (hd : strOf data.deviceId ≠ "")
    (h2 : 2 ≤ ((lookupA st.roomUsers (roomOf data.room)).getD []).length) :
    (hasKey ((lookupA st.roomUsers (roomOf data.room)).getD []) (strOf data.userId) = false →
      on_join st sid data = (st, [SEvent.systemErr "room_full" sid]) ∧
      deliveredTo st (SEvent.systemErr "room_full" sid) = [sid]) ∧
    (hasKey ((lookupA st.roomUsers (roomOf data.room)).getD []) (strOf data.userId) = true →
      on_join st sid data =
        joinCommit st sid (roomOf data.room) (strOf data.userId) (strOf data.deviceId) (nameOf data) ∧
      ∃ a ros, (on_join st sid data).2 =
        [SEvent.userJoined (roomOf data.room) (strOf data.userId) (nameOf data) (strOf data.deviceId) a sid,
         SEvent.roster (roomOf data.room) ros]) := by
  have hcond : ¬(strOf data.userId = "" ∨ strOf data.deviceId = "") := by
    push_neg
    exact ⟨hu, hd⟩
  constructor
  · intro hk
    have hfull : roomFullFor st (roomOf data.room) (strOf data.userId) = true := by
      unfold roomFullFor
      simp only [hk, Bool.not_false, Bool.and_true, decide_eq_true_eq]
      exact h2
    refine ⟨?_, rfl⟩
    unfold on_join
    rw [if_neg hcond, if_pos hfull]
  · intro hk
    have hfull : roomFullFor st (roomOf data.room) (strOf data.userId) = false := by
      unfold roomFullFor
      simp [hk]
    have hj : on_join st sid data =
        joinCommit st sid (roomOf data.room) (strOf data.userId) (strOf data.deviceId) (nameOf data) := by
      unfold on_join
      rw [if_neg hcond, if_neg (by simp [hfull])]
    refine ⟨hj, ?_⟩
    rw [hj]
    exact ⟨_, _, rfl⟩

def c1st : ServerState :=
  runOps [.join "c1" ⟨some "r", some "u1", some "d1", none⟩,
          .join "c2" ⟨some "r", some "u2", some "d2", none⟩]

def c1data : JoinData := ⟨some "r", some "u3", some "d3", none⟩

/-- C1 witness: a room with users u1 and u2; a join by u3 is rejected with
`room_full` sent to the joiner only, and the state is untouched. -/
theorem claim_C1_capacity_witness :
    (strOf c1data.userId ≠ "" ∧ strOf c1data.deviceId ≠ "" ∧
      2 ≤ ((lookupA c1st.roomUsers (roomOf c1data.room)).getD []).length ∧
      hasKey ((lookupA c1st.roomUsers (roomOf c1data.room)).getD []) (strOf c1data.userId) = false) ∧
    (on_join c1st "c3" c1data = (c1st, [SEvent.systemErr "room_full" "c3"]) ∧
      deliveredTo c1st (SEvent.systemErr "room_full" "c3") = ["c3"]) :=
  ⟨by decide, (claim_C1_capacity c1st "c3" c1data (by decide) (by decide) (by decide)).1 (by decide)⟩

/-! ### Claim C2: lastDevice on removal -/

/-- C2.  Removal (leave or disconnect) for a connection whose session points
at an existing presence entry: the device is erased from the entry's device
set, the `user_left` event carries `lastDevice` exactly when the set thereby
becomes empty, in which case the entry is deleted (and the room row too when
no entries remain); otherwise the entry survives with the remaining devices
and the same name. -/
theorem claim_C2_lastDevice (st : ServerState) (sid reason : String) (s : Session)
    (tbl : List (String × UserInfo)) (ue : UserInfo)
    (hs : lookupA st.sessions sid = some s) (hr : s.room ≠ "")
    (ht : lookupA st.roomUsers s.room = some tbl) (hu : lookupA tbl s.userId = some ue)
    (hnr : keysNodup st.roomUsers) (hnt : keysNodup tbl) :
    ((presence_remove st sid reason).2 =
      [SEvent.userLeft s.room s.userId (pyOr s.name s.userId) s.deviceId
         (ue.devices.erase s.deviceId).isEmpty reason sid,
       SEvent.roster s.room
         (mkRoster ((lookupA (presence_remove st sid reason).1.roomUsers s.room).getD []))]) ∧
    (ue.devices.erase s.deviceId = [] →
      lookupA ((lookupA (presence_remove st sid reason).1.roomUsers s.room).getD []) s.userId = none) ∧
    (ue.devices.erase s.deviceId = [] → eraseA tbl s.userId = [] →
      lookupA (presence_remove st sid reason).1.roomUsers s.room = none) ∧
    (ue.devices.erase s.deviceId ≠ [] →
      lookupA ((lookupA (presence_remove st sid reason).1.roomUsers s.room).getD []) s.userId =
        some ⟨ue.name, ue.devices.erase s.deviceId⟩) := by
  rw [presence_remove_char st sid reason s hs hr,
      presence_lock_block_char st.roomUsers s.room s.userId s.deviceId tbl ue ht hu]
  by_cases hds : ue.devices.erase s.deviceId = []
  · rw [if_pos hds]
    by_cases htb : eraseA tbl s.userId = []
    · rw [if_pos htb]
      have hrow : lookupA (eraseA st.roomUsers s.room) s.room = none := lookupA_eraseA_self hnr
      refine ⟨?_, fun _ => ?_, fun _ _ => hrow, fun hcon => absurd hds hcon⟩
      · simp [hds, hrow, lookupA]
      · simp [hrow, lookupA]
    · rw [if_neg htb]
      have hrow : lookupA (insertA st.roomUsers s.room (eraseA tbl s.userId)) s.room =
          some (eraseA tbl s.userId) := by
        rw [lookupA_insertA]
        simp
      refine ⟨?_, fun _ => ?_, fun _ hcon => absurd hcon htb, fun hcon => absurd hds hcon⟩
      · simp [hds]
      · simp only [hrow, Option.getD_some]
        exact lookupA_eraseA_self hnt
  · rw [if_neg hds]
    have hrow : lookupA (insertA st.roomUsers s.room
        (insertA tbl s.userId ⟨ue.name, ue.devices.erase s.deviceId⟩)) s.room =
        some (insertA tbl s.userId ⟨ue.name, ue.devices.erase s.deviceId⟩) := by
      rw [lookupA_insertA]
      simp
    refine ⟨?_, fun hcon => absurd hcon hds, fun hcon => absurd hcon hds, fun _ => ?_⟩
    · simp [List.isEmpty_iff, hds]
    · simp only [hrow, Option.getD_some]
      rw [lookupA_insertA]
      simp

def c2st : ServerState :=
  runOps [.join "c1" ⟨some "r", some "u", some "D1", none⟩,
          .join "c2" ⟨some "r", some "u", some "D2", none⟩]

def c2sess : Session := ⟨"r", "u", "D1", "u"⟩

def c2tbl : List (String × UserInfo) := [("u", ⟨"u", ["D1", "D2"]⟩)]

def c2ue : UserInfo := ⟨"u", ["D1", "D2"]⟩

/-- C2 witness: user u present with devices D1 and D2; disconnect of the D1
connection erases D1, `lastDevice` is false, and the entry survives with D2. -/
theorem claim_C2_lastDevice_witness :
    (lookupA c2st.sessions "c1" = some c2sess ∧ c2sess.room ≠ "" ∧
     lookupA c2st.roomUsers c2sess.room = some c2tbl ∧
     lookupA c2tbl c2sess.userId = some c2ue ∧
     keysNodup c2st.roomUsers ∧ keysNodup c2tbl) ∧
    (((presence_remove c2st "c1" "disconnect").2 =
      [SEvent.userLeft c2sess.room c2sess.userId (pyOr c2sess.name c2sess.userId) c2sess.deviceId
         (c2ue.devices.erase c2sess.deviceId).isEmpty "disconnect" "c1",
       SEvent.roster c2sess.room
         (mkRoster ((lookupA (presence_remove c2st "c1" "disconnect").1.roomUsers c2sess.room).getD []))]) ∧
    (c2ue.devices.erase c2sess.deviceId = [] →
      lookupA ((lookupA (presence_remove c2st "c1" "disconnect").1.roomUsers c2sess.room).getD [])
        c2sess.userId = none) ∧
    (c2ue.devices.erase c2sess.deviceId = [] → eraseA c2tbl c2sess.userId = [] →
      lookupA (presence_remove c2st "c1" "disconnect").1.roomUsers c2sess.room = none) ∧
    (c2ue.devices.erase c2sess.deviceId ≠ [] →
      lookupA ((lookupA (presence_remove c2st "c1" "disconnect").1.roomUsers c2sess.room).getD [])
        c2sess.userId = some ⟨c2ue.name, c2ue.devices.erase c2sess.deviceId⟩)) :=
  ⟨⟨by decide, by decide, by decide, by decide, by decide, by decide⟩,
   claim_C2_lastDevice c2st "c1" "disconnect" c2sess c2tbl c2ue
     (by decide) (by decide) (by decide) (by decide) (by decide) (by decide)⟩

/-! ### Claim C7: the anotherDevice flag -/

/-- C7.  On every accepted full-mode join, the emitted `user_joined` event's
`anotherDevice` flag equals `alreadyPresent AND NOT deviceAlreadyPresent`,
both captured from the table before the mutation. -/
theorem claim_C7_anotherDevice (st : ServerState) (sid : String) (data : JoinData)
    (hu : strOf data.userId ≠ "") (hd : strOf data.deviceId ≠ "")
    (hfull : roomFullFor st (roomOf data.room) (strOf data.userId) = false) :
    (on_join st sid data).2 =
      [SEvent.userJoined (roomOf data.room) (strOf data.userId) (nameOf data) (strOf data.deviceId)
         ((hasKey ((lookupA st.roomUsers (roomOf data.room)).getD []) (strOf data.userId)) &&
          !((match lookupA ((lookupA st.roomUsers (roomOf data.room)).getD []) (strOf data.userId) with
             | some ue => ue.devices
             | none => []).contains (strOf data.deviceId))) sid,
       SEvent.roster (roomOf data.room)
         (mkRoster ((lookupA (on_join st sid data).1.roomUsers (roomOf data.room)).getD []))] := by
  have hcond : ¬(strOf data.userId = "" ∨ strOf data.deviceId = "") := by
    push_neg
    exact ⟨hu, hd⟩
  have hj : on_join st sid data =
      joinCommit st sid (roomOf data.room) (strOf data.userId) (strOf data.deviceId) (nameOf data) := by
    unfold on_join
    rw [if_neg hcond, if_neg (by simp [hfull])]
  rw [hj]
  simp only [joinCommit]
  rw [join_lock_block_already, join_lock_block_pre]
  simp only [enterRoom_roomUsers]

def c7st : ServerState := runOps [.join "c1" ⟨some "r", some "uA", some "D1", none⟩]

/-- C7 witness: uA is present with device D1; a join by uA with new device D2
carries `anotherDevice = true` computed from the pre-state. -/
theorem claim_C7_anotherDevice_witness :
    (strOf (JoinData.mk (some "r") (some "uA") (some "D2") none).userId ≠ "" ∧
     strOf (JoinData.mk (some "r") (some "uA") (some "D2") none).deviceId ≠ "" ∧
     roomFullFor c7st "r" "uA" = false ∧
     (hasKey ((lookupA c7st.roomUsers "r").getD []) "uA" &&
       !((match lookupA ((lookupA c7st.roomUsers "r").getD []) "uA" with
          | some ue => ue.devices
          | none => []).contains "D2")) = true) ∧
    (on_join c7st "c2" ⟨some "r", some "uA", some "D2", none⟩).2 =
      [SEvent.userJoined "r" "uA" "uA" "D2"
         ((hasKey ((lookupA c7st.roomUsers "r").getD []) "uA") &&
          !((match lookupA ((lookupA c7st.roomUsers "r").getD []) "uA" with
             | some ue => ue.devices
             | none => []).contains "D2")) "c2",
       SEvent.roster "r"
         (mkRoster ((lookupA (on_join c7st "c2" ⟨some "r", some "uA", some "D2", none⟩).1.roomUsers "r").getD []))] :=
  ⟨by decide, claim_C7_anotherDevice c7st "c2" ⟨some "r", some "uA", some "D2", none⟩
     (by decide) (by decide) (by decide)⟩

/-! ### Claim C10: signal passthrough -/

/-- C10.  A `signal` whose payload is an object carrying a non-empty string
`room` field is relayed verbatim (the very same payload value, extra fields
and all) under event name `signal` to the members of that room excluding the
sender, with no state change. -/
theorem claim_C10_signal (st : ServerState) (sid rs : String) (fs : List (String × JVal))
    (hroom : lookupA fs "room" = some (JVal.s rs)) (hrs : rs ≠ "") :
    on_signal st sid (JVal.obj fs) = (st, [SEvent.signal rs (JVal.obj fs) sid]) ∧
    deliveredTo st (SEvent.signal rs (JVal.obj fs) sid) =
      (membersOf st rs).filter (fun c => c ≠ sid) := by
  have hfs : fs ≠ [] := by
    intro h
    subst h
    simp [lookupA] at hroom
  refine ⟨?_, rfl⟩
  have htr : pyTruthy (JVal.obj fs) = true := by
    simp [pyTruthy]
    exact hfs
  unfold on_signal
  rw [if_pos htr]
  simp [jGet, hroom, hrs]

def cWst : ServerState := ⟨[], [("rm", ["a", "b", "c"])], []⟩

def cWpayload : List (String × JVal) :=
  [("room", JVal.s "rm"), ("sdp", JVal.s "v=0"), ("extra", JVal.n 7)]

/-- C10 witness: a payload with extra fields is relayed unchanged to the two
other members of room rm. -/
theorem claim_C10_signal_witness :
    (lookupA cWpayload "room" = some (JVal.s "rm") ∧ "rm" ≠ "") ∧
    (on_signal cWst "a" (JVal.obj cWpayload) = (cWst, [SEvent.signal "rm" (JVal.obj cWpayload) "a"]) ∧
      deliveredTo cWst (SEvent.signal "rm" (JVal.obj cWpayload) "a") =
        (membersOf cWst "rm").filter (fun c => c ≠ "a")) :=
  ⟨⟨rfl, by decide⟩, claim_C10_signal cWst "a" "rm" cWpayload rfl (by decide)⟩

/-! ### More structural lemmas: reason-independence and session preservation -/

/-- Replace the `reason` field of a `user_left` event; other events unchanged. -/
def setLeftReason (r : String) : SEvent → SEvent
  | .userLeft room uid name did last _ skip => .userLeft room uid name did last r skip
  | e => e

/-- The state produced by `_presence_remove` does not depend on the reason. -/
theorem presence_remove_reason_state (st : ServerState) (sid r1 r2 : String) :
    (presence_remove st sid r1).1 = (presence_remove st sid r2).1 := by
  unfold presence_remove
  cases hs : lookupA st.sessions sid with
  | none => rfl
  | some s =>
    dsimp only
    by_cases hr : s.room = ""
    · rw [if_pos hr, if_pos hr]
    · rw [if_neg hr, if_neg hr]

/-- The events of `_presence_remove` differ only in the reason field. -/
theorem presence_remove_reason_events (st : ServerState) (sid r1 r2 : String) :
    (presence_remove st sid r1).2 = ((presence_remove st sid r2).2).map (setLeftReason r1) := by
  unfold presence_remove
  cases hs : lookupA st.sessions sid with
  | none => rfl
  | some s =>
    dsimp only
    by_cases hr : s.room = ""
    · rw [if_pos hr, if_pos hr]
      rfl
    · rw [if_neg hr, if_neg hr]
      rfl

/-- `_presence_remove` never touches the session store. -/
theorem presence_remove_sessions (st : ServerState) (sid r : String) :
    (presence_remove st sid r).1.sessions = st.sessions := by
  unfold presence_remove
  cases hs : lookupA st.sessions sid with
  | none => rfl
  | some s =>
    dsimp only
    by_cases hr : s.room = ""
    · rw [if_pos hr]
    · rw [if_neg hr]

/-- `_presence_remove` never touches the transport membership. -/
theorem presence_remove_membership (st : ServerState) (sid r : String) :
    (presence_remove st sid r).1.membership = st.membership := by
  unfold presence_remove
  cases hs : lookupA st.sessions sid with
  | none => rfl
  | some s =>
    dsimp only
    by_cases hr : s.room = ""
    · rw [if_pos hr]
    · rw [if_neg hr]

/-- Invariants of all states reachable from the empty server. -/
theorem runOps_inv (P : ServerState → Prop) (h0 : P initState)
    (hstep : ∀ st op, P st → P (step st op)) (ops : List Op) : P (runOps ops) := by
  suffices h : ∀ (l : List Op) (st : ServerState), P st → P (List.foldl step st l) from
    h ops initState h0
  intro l
  induction l with
  | nil => intro st hst; exact hst
  | cons o t ih =>
    intro st hst
    exact ih _ (hstep st o hst)

theorem step_sessions_keysNodup (st : ServerState) (op : Op)
    (h : keysNodup st.sessions) : keysNodup (step st op).sessions := by
  cases op with
  | join sid d =>
    show keysNodup (on_join st sid d).1.sessions
    unfold on_join
    by_cases h1 : strOf d.userId = "" ∨ strOf d.deviceId = ""
    · rw [if_pos h1]
      exact h
    · rw [if_neg h1]
      by_cases h2 : roomFullFor st (roomOf d.room) (strOf d.userId) = true
      · rw [if_pos h2]
        exact h
      · rw [if_neg h2]
        show keysNodup (insertA st.sessions sid _)
        exact keysNodup_insertA h
  | leave sid =>
    show keysNodup (presence_remove st sid "leave").1.sessions
    rw [presence_remove_sessions]
    exact h
  | disc sid =>
    show keysNodup (eraseA (presence_remove st sid "disconnect").1.sessions sid)
    rw [presence_remove_sessions]
    exact keysNodup_eraseA h

/-- The session store of every reachable state has pairwise-distinct sids. -/
theorem sessions_keysNodup (ops : List Op) : keysNodup (runOps ops).sessions :=
  runOps_inv (fun st => keysNodup st.sessions) (by simp [initState, keysNodup])
    step_sessions_keysNodup ops

/-! ### Claim C3: presence consistency invariant (corrected) -/

/-- The invariant claimed by the spec: every entry's device set is non-empty,
and an entry exists for (room, userId) iff some live session references that
pair. -/
def presenceConsistent (st : ServerState) : Prop :=
  (∀ p, p ∈ st.roomUsers → ∀ q, q ∈ p.2 → (q : String × UserInfo).2.devices ≠ []) ∧
  (∀ room uid : String,
    (∃ tbl ue, lookupA st.roomUsers room = some tbl ∧ lookupA tbl uid = some ue) ↔
    (∃ sid s, lookupA st.sessions sid = some s ∧ s.room = room ∧ s.userId = uid))

def c3st : ServerState :=
  runOps [.join "c1" ⟨some "r", some "u", some "d", some "Ann"⟩, .leave "c1"]

/-- C3 counterexample: after join then explicit leave, the presence entry is
gone but the session of the still-connected socket keeps referencing
(r, u), because `_presence_remove` never deletes the session.  The claimed
iff fails on this reachable state. -/
theorem claim_C3_cex : ¬ presenceConsistent c3st := by
  intro h
  have hr := (h.2 "r" "u").mpr ⟨"c1", ⟨"r", "u", "d", "Ann"⟩, by decide, rfl, rfl⟩
  obtain ⟨tbl, ue, htbl, hue⟩ := hr
  have hnone : lookupA c3st.roomUsers "r" = none := by decide
  rw [hnone] at htbl
  cases htbl

/-- Devices of every entry of every row of a presence table are non-empty. -/
def tableNonempty (ru : RoomTable) : Prop :=
  ∀ p, p ∈ ru → ∀ q, q ∈ p.2 → (q : String × UserInfo).2.devices ≠ []

theorem mem_insertA_append_fresh {α : Type} {l : List (String × α)} {k : String}
    {w v : α} {q : String × α} (hk : hasKey l k = false)
    (h : q ∈ insertA (l ++ [(k, w)]) k v) : q ∈ l ∨ q = (k, v) := by
  induction l with
  | nil =>
    simp only [List.nil_append, insertA, if_pos rfl] at h
    right
    simpa using h
  | cons p t ih =>
    obtain ⟨a, b⟩ := p
    have hak : a ≠ k := by
      intro hh
      rw [hasKey, lookupA, if_pos hh] at hk
      simp at hk
    have hkt : hasKey t k = false := by
      rw [hasKey, lookupA, if_neg hak] at hk
      exact hk
    simp only [List.cons_append, insertA, if_neg hak] at h
    rcases List.mem_cons.mp h with h1 | h1
    · left
      rw [h1]
      exact List.mem_cons_self _ _
    · rcases ih hkt h1 with h2 | h2
      · left
        exact List.mem_cons_of_mem _ h2
      · right
        exact h2

theorem tableNonempty_join_lock_block (ru : RoomTable) (room uid did name : String)
    (h : tableNonempty ru) :
    tableNonempty (join_lock_block ru room uid did name).1 := by
  have htbl : ∀ q, q ∈ (lookupA ru room).getD [] → (q : String × UserInfo).2.devices ≠ [] := by
    cases hl : lookupA ru room with
    | none => intro q hq; simp at hq
    | some tbl => exact h (room, tbl) (lookupA_mem hl)
  unfold join_lock_block
  dsimp only
  intro p hp q hq
  rcases mem_insertA hp with hp1 | hp1
  · exact h p hp1 q hq
  · subst hp1
    dsimp only at hq
    by_cases hk : hasKey ((lookupA ru room).getD []) uid
    · rw [if_pos hk] at hq
      rcases mem_insertA hq with hq1 | hq1
      · exact htbl q hq1
      · subst hq1
        exact setAdd_ne_nil _ _
    · rw [if_neg hk] at hq
      rcases mem_insertA_append_fresh (Bool.of_not_eq_true hk) hq with hq1 | hq1
      · exact htbl q hq1
      · subst hq1
        exact setAdd_ne_nil _ _

theorem tableNonempty_presence_lock_block (ru : RoomTable) (room uid did : String)
    (h : tableNonempty ru) :
    tableNonempty (presence_lock_block ru room uid did).1 := by
  unfold presence_lock_block
  cases ht : lookupA ru room with
  | none => exact h
  | some tbl =>
    dsimp only
    have htbl : ∀ q, q ∈ tbl → (q : String × UserInfo).2.devices ≠ [] :=
      h (room, tbl) (lookupA_mem ht)
    cases hu : lookupA tbl uid with
    | none => exact h
    | some ue =>
      dsimp only
      by_cases hds : (ue.devices.erase did).isEmpty
      · rw [if_pos hds]
        by_cases htb : (eraseA tbl uid).isEmpty
        · rw [if_pos htb]
          intro p hp q hq
          exact h p (mem_eraseA hp) q hq
        · rw [if_neg htb]
          intro p hp q hq
          rcases mem_insertA hp with hp1 | hp1
          · exact h p hp1 q hq
          · subst hp1
            exact htbl q (mem_eraseA hq)
      · rw [if_neg hds]
        intro p hp q hq
        rcases mem_insertA hp with hp1 | hp1
        · exact h p hp1 q hq
        · subst hp1
          rcases mem_insertA hq with hq1 | hq1
          · exact htbl q hq1
          · subst hq1
            intro hcon
            dsimp only at hcon
            rw [hcon] at hds
            simp at hds

theorem step_tableNonempty (st : ServerState) (op : Op)
    (h : tableNonempty st.roomUsers) : tableNonempty (step st op).roomUsers := by
  cases op with
  | join sid d =>
    show tableNonempty (on_join st sid d).1.roomUsers
    unfold on_join
    by_cases h1 : strOf d.userId = "" ∨ strOf d.deviceId = ""
    · rw [if_pos h1]
      exact h
    · rw [if_neg h1]
      by_cases h2 : roomFullFor st (roomOf d.room) (strOf d.userId) = true
      · rw [if_pos h2]
        exact h
      · rw [if_neg h2]
        exact tableNonempty_join_lock_block st.roomUsers _ _ _ _ h
  | leave sid =>
    show tableNonempty (presence_remove st sid "leave").1.roomUsers
    unfold presence_remove
    cases hs : lookupA st.sessions sid with
    | none => exact h
    | some s =>
      dsimp only
      by_cases hr : s.room = ""
      · rw [if_pos hr]
        exact tableNonempty_presence_lock_block st.roomUsers _ _ _ h
      · rw [if_neg hr]
        exact tableNonempty_presence_lock_block st.roomUsers _ _ _ h
  | disc sid =>
    show tableNonempty (presence_remove st sid "disconnect").1.roomUsers
    unfold presence_remove
    cases hs : lookupA st.sessions sid with
    | none => exact h
    | some s =>
      dsimp only
      by_cases hr : s.room = ""
      · rw [if_pos hr]
        exact tableNonempty_presence_lock_block st.roomUsers _ _ _ h
      · rw [if_neg hr]
        exact tableNonempty_presence_lock_block st.roomUsers _ _ _ h

/-- C3 amended: over every operation sequence from the empty server, every
existing Room Presence Entry has a non-empty device set.  The claimed iff
with live sessions does not hold (see the counterexample): an explicit leave
removes presence but leaves the Connection Session in place. -/
theorem claim_C3_amended (ops : List Op) : tableNonempty (runOps ops).roomUsers :=
  runOps_inv (fun st => tableNonempty st.roomUsers)
    (by intro p hp; simp [initState] at hp) step_tableNonempty ops

/-! ### Claim C4: idempotent cleanup (corrected) -/

def c4st : ServerState := runOps [.join "c1" ⟨some "r", some "u", some "d", none⟩]

/-- C4 counterexample: after a join, the first explicit leave does NOT remove
the Connection Session (it is still found afterwards), and a second leave for
the same connection broadcasts `user_left` again instead of being a silent
no-op. -/
theorem claim_C4_cex :
    lookupA (on_leave c4st "c1").1.sessions "c1" = some ⟨"r", "u", "d", "u"⟩ ∧
    (on_leave (on_leave c4st "c1").1 "c1").2 =
      [SEvent.userLeft "r" "u" "u" "d" false "leave" "c1", SEvent.roster "r" []] :=
  ⟨by decide, rfl⟩

/-- C4 amended: a duplicate disconnect is a silent no-op — not because the
removal routine removes the session (it does not), but because the transport
destroys the session after the disconnect handler: the second removal finds
no session, changes nothing and emits nothing. -/
theorem claim_C4_amended (ops : List Op) (sid reason : String) :
    presence_remove ((disconnect (runOps ops) sid).1) sid reason =
      ((disconnect (runOps ops) sid).1, []) := by
  have hs : lookupA ((disconnect (runOps ops) sid).1).sessions sid = none := by
    show lookupA (eraseA (presence_remove (runOps ops) sid "disconnect").1.sessions sid) sid = none
    rw [presence_remove_sessions]
    exact lookupA_eraseA_self (sessions_keysNodup ops)
  unfold presence_remove
  simp only [hs]

/-! ### Claim C5: displayName update on join (corrected) -/

def c5st : ServerState :=
  runOps [.join "c1" ⟨some "r", some "u", some "d1", some "Alice"⟩,
          .join "c2" ⟨some "r", some "u", some "d2", some "Bob"⟩]

/-- C5 counterexample: the second device of user u joins with name Bob, yet
the presence entry (and the roster built from it) still carries Alice — the
handler sets the name only when it creates the entry. -/
theorem claim_C5_cex :
    nameOf ⟨some "r", some "u", some "d2", some "Bob"⟩ = "Bob" ∧
    lookupA ((lookupA c5st.roomUsers "r").getD []) "u" = some ⟨"Alice", ["d1", "d2"]⟩ ∧
    mkRoster ((lookupA c5st.roomUsers "r").getD []) = [⟨"u", "Alice", ["d1", "d2"]⟩] :=
  ⟨by decide, by decide, by decide⟩

theorem join_lock_block_table_already (ru : RoomTable) (room uid did name : String) (ue : UserInfo)
    (hue : lookupA ((lookupA ru room).getD []) uid = some ue) :
    (join_lock_block ru room uid did name).1 =
      insertA ru room (insertA ((lookupA ru room).getD []) uid ⟨ue.name, setAdd ue.devices did⟩) := by
  unfold join_lock_block
  simp [hasKey, hue]

/-- C5 amended: on a full-mode join whose (room, userId) entry already
exists, the entry keeps its stored displayName (only the device set grows);
the latest supplied name goes into the new session and the `user_joined`
event, not into the entry. -/
theorem claim_C5_amended (st : ServerState) (sid : String) (data : JoinData) (ue : UserInfo)
    (hu : strOf data.userId ≠ "") (hd : strOf data.deviceId ≠ "")
    (hfull : roomFullFor st (roomOf data.room) (strOf data.userId) = false)
    (hue : lookupA ((lookupA st.roomUsers (roomOf data.room)).getD []) (strOf data.userId) = some ue) :
    lookupA ((lookupA (on_join st sid data).1.roomUsers (roomOf data.room)).getD [])
        (strOf data.userId) = some ⟨ue.name, setAdd ue.devices (strOf data.deviceId)⟩ ∧
    lookupA (on_join st sid data).1.sessions sid =
      some ⟨roomOf data.room, strOf data.userId, strOf data.deviceId, nameOf data⟩ ∧
    ∃ a ros, (on_join st sid data).2 =
      [SEvent.userJoined (roomOf data.room) (strOf data.userId) (nameOf data) (strOf data.deviceId) a sid,
       SEvent.roster (roomOf data.room) ros] := by
  have hcond : ¬(strOf data.userId = "" ∨ strOf data.deviceId = "") := by
    push_neg
    exact ⟨hu, hd⟩
  have hj : on_join st sid data =
      joinCommit st sid (roomOf data.room) (strOf data.userId) (strOf data.deviceId) (nameOf data) := by
    unfold on_join
    rw [if_neg hcond, if_neg (by simp [hfull])]
  rw [hj]
  refine ⟨?_, ?_, ⟨_, _, rfl⟩⟩
  · show lookupA ((lookupA (join_lock_block st.roomUsers (roomOf data.room) (strOf data.userId)
        (strOf data.deviceId) (nameOf data)).1 (roomOf data.room)).getD []) (strOf data.userId) = _
    rw [join_lock_block_table_already _ _ _ _ _ ue hue]
    simp [lookupA_insertA]
  · show lookupA (insertA st.sessions sid _) sid = _
    simp [lookupA_insertA]

def c5pre : ServerState := runOps [.join "c1" ⟨some "r", some "u", some "d1", some "Alice"⟩]

def c5data : JoinData := ⟨some "r", some "u", some "d2", some "Bob"⟩

/-- C5 amended witness: Alice's entry keeps its name after Bob's device
joins; Bob's name is recorded in the session and event. -/
theorem claim_C5_amended_witness :
    (strOf c5data.userId ≠ "" ∧ strOf c5data.deviceId ≠ "" ∧
     roomFullFor c5pre (roomOf c5data.room) (strOf c5data.userId) = false ∧
     lookupA ((lookupA c5pre.roomUsers (roomOf c5data.room)).getD []) (strOf c5data.userId) =
       some ⟨"Alice", ["d1"]⟩) ∧
    (lookupA ((lookupA (on_join c5pre "c2" c5data).1.roomUsers (roomOf c5data.room)).getD [])
        (strOf c5data.userId) = some ⟨(UserInfo.mk "Alice" ["d1"]).name,
          setAdd (UserInfo.mk "Alice" ["d1"]).devices (strOf c5data.deviceId)⟩ ∧
     lookupA (on_join c5pre "c2" c5data).1.sessions "c2" =
       some ⟨roomOf c5data.room, strOf c5data.userId, strOf c5data.deviceId, nameOf c5data⟩ ∧
     ∃ a ros, (on_join c5pre "c2" c5data).2 =
       [SEvent.userJoined (roomOf c5data.room) (strOf c5data.userId) (nameOf c5data)
          (strOf c5data.deviceId) a "c2",
        SEvent.roster (roomOf c5data.room) ros]) :=
  ⟨⟨by decide, by decide, by decide, by decide⟩,
   claim_C5_amended c5pre "c2" c5data ⟨"Alice", ["d1"]⟩ (by decide) (by decide) (by decide) (by decide)⟩

/-! ### Claim C6: leave and disconnect convergence (corrected) -/

def c6st : ServerState := runOps [.join "c1" ⟨some "r", some "u", some "d", none⟩]

/-- C6 counterexample: after the same single-user join, explicit leave and
abrupt disconnect do NOT converge on identical state: leave keeps the
session and the transport membership of the connection, disconnect's
transport cleanup removes both. -/
theorem claim_C6_cex :
    (on_leave c6st "c1").1 ≠ (disconnect c6st "c1").1 ∧
    lookupA (on_leave c6st "c1").1.sessions "c1" = some ⟨"r", "u", "d", "u"⟩ ∧
    lookupA (disconnect c6st "c1").1.sessions "c1" = none ∧
    membersOf (on_leave c6st "c1").1 "r" = ["c1"] ∧
    membersOf (disconnect c6st "c1").1 "r" = [] :=
  ⟨by decide, by decide, by decide, by decide, by decide⟩

/-- C6 amended: leave and disconnect run the same removal routine, so the
Room Presence Table ends identical and the emitted events are identical up
to the reason field; but the Connection Session Store and the transport Room
Membership differ exactly by the transport's post-disconnect cleanup. -/
theorem claim_C6_amended (st : ServerState) (sid : String) :
    (on_leave st sid).1.roomUsers = (disconnect st sid).1.roomUsers ∧
    (on_leave st sid).2 = ((disconnect st sid).2).map (setLeftReason "leave") ∧
    (disconnect st sid).1.sessions = eraseA (on_leave st sid).1.sessions sid ∧
    (disconnect st sid).1.membership = removeSidEverywhere (on_leave st sid).1.membership sid := by
  unfold on_leave disconnect
  dsimp only
  refine ⟨?_, ?_, ?_, ?_⟩
  · rw [presence_remove_reason_state st sid "leave" "disconnect"]
  · exact presence_remove_reason_events st sid "leave" "disconnect"
  · rw [presence_remove_sessions, presence_remove_sessions]
  · rw [presence_remove_membership, presence_remove_membership]

/-! ### Claim C8: missing room on join (corrected) -/

/-- C8 counterexample: a full-mode join with an empty room field is not
rejected at all — it mutates the table (an entry appears under room
"default") and broadcasts `user_joined`, against the claimed
ValidationError-with-no-state-change. -/
theorem claim_C8_cex :
    (on_join initState "c1" ⟨some "", some "u", some "d", none⟩).1 ≠ initState ∧
    lookupA ((lookupA (on_join initState "c1" ⟨some "", some "u", some "d", none⟩).1.roomUsers
        "default").getD []) "u" = some ⟨"u", ["d"]⟩ ∧
    (on_join initState "c1" ⟨some "", some "u", some "d", none⟩).2 =
      [SEvent.userJoined "default" "u" "u" "d" false "c1",
       SEvent.roster "default" [⟨"u", "u", ["d"]⟩]] :=
  ⟨by decide, by decide, rfl⟩

/-- C8 amended: a missing, empty or blank room field is silently defaulted
to room "default"; the join then behaves exactly like a join into "default".
No ValidationError for the room field exists in the handler. -/
theorem claim_C8_amended (st : ServerState) (sid : String) (u d n : Option String) :
    on_join st sid ⟨none, u, d, n⟩ = on_join st sid ⟨some "default", u, d, n⟩ ∧
    on_join st sid ⟨some "", u, d, n⟩ = on_join st sid ⟨some "default", u, d, n⟩ ∧
    on_join st sid ⟨some "  ", u, d, n⟩ = on_join st sid ⟨some "default", u, d, n⟩ :=
  ⟨rfl, rfl, rfl⟩

/-! ### Claim C9: join atomicity (corrected)

`on_join` does not run under one critical section: the capacity check (lines
141-145) and the presence mutation (lines 150-155) are two separate
`async with presence_lock` blocks, and `sio.enter_room` plus the awaited
`sio.save_session` sit between them outside any lock.  Another task's
capacity check can therefore run between one join's check and its commit.
`roomFullFor` is the first lock block's test and `joinCommit` is everything
that follows a passed check, so a schedule "check B, check C, commit B,
commit C" is the interleaving below. -/

def st9 : ServerState := runOps [.join "cA" ⟨some "r", some "uA", some "dA", none⟩]

def st9B : ServerState := (joinCommit st9 "cB" "r" "uB" "dB" "uB").1

def st9C : ServerState := (joinCommit st9B "cC" "r" "uC" "dC" "uC").1

/-- C9 counterexample: with uA alone in room r, the capacity checks of two
further joins (uB, uC) both pass on the same state, and running both commits
afterwards yields a room with 3 distinct userIds — a state the claimed
single-critical-section execution can never reach (see the amended theorem:
atomic joins keep every room at 2 or fewer users). -/
theorem claim_C9_cex :
    roomFullFor st9 "r" "uB" = false ∧
    roomFullFor st9 "r" "uC" = false ∧
    ((lookupA st9C.roomUsers "r").getD []).length = 3 :=
  ⟨by decide, by decide, by decide⟩

/-- Every room row of a presence table holds at most 2 distinct users. -/
def tableCapped (ru : RoomTable) : Prop :=
  ∀ p, p ∈ ru → (p : String × List (String × UserInfo)).2.length ≤ 2

theorem tableCapped_join_lock_block (ru : RoomTable) (room uid did name : String)
    (h : tableCapped ru)
    (hfull : 2 ≤ ((lookupA ru room).getD []).length →
      hasKey ((lookupA ru room).getD []) uid = true) :
    tableCapped (join_lock_block ru room uid did name).1 := by
  have htl : ((lookupA ru room).getD []).length ≤ 2 := by
    cases hl : lookupA ru room with
    | none => simp
    | some t => exact h (room, t) (lookupA_mem hl)
  unfold join_lock_block
  dsimp only
  intro p hp
  rcases mem_insertA hp with hp1 | hp1
  · exact h p hp1
  · subst hp1
    dsimp only
    by_cases hk : hasKey ((lookupA ru room).getD []) uid
    · rw [if_pos hk]
      rw [insertA_length]
      rw [if_pos hk]
      exact htl
    · rw [if_neg hk]
      have hk2 : lookupA ((lookupA ru room).getD []) uid = none := by
        cases hl2 : lookupA ((lookupA ru room).getD []) uid with
        | none => rfl
        | some w => exact absurd (by simp [hasKey, hl2]) hk
      have hlen1 : ((lookupA ru room).getD []).length ≤ 1 := by
        by_contra hcon
        exact hk (hfull (by omega))
      rw [insertA_length]
      have hk3 : hasKey ((lookupA ru room).getD [] ++ [(uid, ⟨name, []⟩)]) uid = true := by
        simp [hasKey, lookupA_append_fresh _ _ _ hk2]
      rw [if_pos hk3]
      simp only [List.length_append, List.length_cons, List.length_nil]
      omega

theorem tableCapped_presence_lock_block (ru : RoomTable) (room uid did : String)
    (h : tableCapped ru) :
    tableCapped (presence_lock_block ru room uid did).1 := by
  unfold presence_lock_block
  cases ht : lookupA ru room with
  | none => exact h
  | some tbl =>
    dsimp only
    have htl : tbl.length ≤ 2 := h (room, tbl) (lookupA_mem ht)
    cases hu : lookupA tbl uid with
    | none => exact h
    | some ue =>
      dsimp only
      have hk : hasKey tbl uid = true := by simp [hasKey, hu]
      by_cases hds : (ue.devices.erase did).isEmpty
      · rw [if_pos hds]
        by_cases htb : (eraseA tbl uid).isEmpty
        · rw [if_pos htb]
          intro p hp
          exact h p (mem_eraseA hp)
        · rw [if_neg htb]
          intro p hp
          rcases mem_insertA hp with hp1 | hp1
          · exact h p hp1
          · subst hp1
            dsimp only
            exact le_trans (eraseA_length_le tbl uid) htl
      · rw [if_neg hds]
        intro p hp
        rcases mem_insertA hp with hp1 | hp1
        · exact h p hp1
        · subst hp1
          dsimp only
          rw [insertA_length, if_pos hk]
          exact htl

theorem step_tableCapped (st : ServerState) (op : Op)
    (h : tableCapped st.roomUsers) : tableCapped (step st op).roomUsers := by
  cases op with
  | join sid d =>
    show tableCapped (on_join st sid d).1.roomUsers
    unfold on_join
    by_cases h1 : strOf d.userId = "" ∨ strOf d.deviceId = ""
    · rw [if_pos h1]
      exact h
    · rw [if_neg h1]
      by_cases h2 : roomFullFor st (roomOf d.room) (strOf d.userId) = true
      · rw [if_pos h2]
        exact h
      · rw [if_neg h2]
        have hb : roomFullFor st (roomOf d.room) (strOf d.userId) = false :=
          Bool.of_not_eq_true h2
        have hfull : 2 ≤ ((lookupA st.roomUsers (roomOf d.room)).getD []).length →
            hasKey ((lookupA st.roomUsers (roomOf d.room)).getD []) (strOf d.userId) = true := by
          intro hlen
          by_cases hkk : hasKey ((lookupA st.roomUsers (roomOf d.room)).getD []) (strOf d.userId)
          · exact hkk
          · exfalso
            have hcon : roomFullFor st (roomOf d.room) (strOf d.userId) = true := by
              unfold roomFullFor
              dsimp only
              rw [Bool.of_not_eq_true hkk]
              simp [hlen]
            rw [hcon] at hb
            cases hb
        exact tableCapped_join_lock_block st.roomUsers _ _ _ _ h hfull
  | leave sid =>
    show tableCapped (presence_remove st sid "leave").1.roomUsers
    unfold presence_remove
    cases hs : lookupA st.sessions sid with
    | none => exact h
    | some s =>
      dsimp only
      by_cases hr : s.room = ""
      · rw [if_pos hr]
        exact tableCapped_presence_lock_block st.roomUsers _ _ _ h
      · rw [if_neg hr]
        exact tableCapped_presence_lock_block st.roomUsers _ _ _ h
  | disc sid =>
    show tableCapped (presence_remove st sid "disconnect").1.roomUsers
    unfold presence_remove
    cases hs : lookupA st.sessions sid with
    | none => exact h
    | some s =>
      dsimp only
      by_cases hr : s.room = ""
      · rw [if_pos hr]
        exact tableCapped_presence_lock_block st.roomUsers _ _ _ h
      · rw [if_neg hr]
        exact tableCapped_presence_lock_block st.roomUsers _ _ _ h

/-- C9 amended: each lock-guarded block is individually atomic, but a join's
capacity check and its presence mutation are two separate critical sections.
When whole operations do run atomically (every serial schedule, here every
`runOps` sequence), no room ever exceeds 2 distinct userIds — which is
exactly the bound the interleaved schedule of the counterexample violates. -/
theorem claim_C9_amended (ops : List Op) (room : String) :
    ((lookupA (runOps ops).roomUsers room).getD []).length ≤ 2 := by
  have h := runOps_inv (fun st => tableCapped st.roomUsers)
    (by intro p hp; simp [initState] at hp) step_tableCapped ops
  cases hl : lookupA (runOps ops).roomUsers room with
  | none => simp
  | some tbl =>
    simpa using h (room, tbl) (lookupA_mem hl)

end DualVideo
